import Mathlib

/-!
Verification of the procedural chip-background generator
(`scripts/gen_chip_bg.py`): a shallow embedding of `generate_chip_bg`
and proofs about its layer compositor and bitmap encoder.

Randomness model: the Python script draws from the global `random`
module sequentially.  We model the source of randomness as a stream
`g : Nat → Nat`, where `g i` is the i-th raw draw; `random.randint(a,b)`
applied to the i-th draw returns `a + g i % (b + 1 - a)`, a value in the
inclusive range `[a, b]` exactly as Python's `randint`.  The script's
draw order is: 5 draws per block for `blockCount` blocks (x, y, width,
height, colorBoost, blocks in order), then one noise draw per pixel in
row-major order (y outer, x inner).  Hence block `i` consumes draws
`5*i .. 5*i+4` and pixel `(x, y)` consumes draw `5*blockCount + y*width + x`.
-/

/-- Python's `random.randint lo hi` applied to one raw draw `d`:
a value in the inclusive range `[lo, hi]`. -/
def randint (lo hi d : Nat) : Nat := lo + d % (hi + 1 - lo)

/-- One random block: top-left `(x, y)`, extents `w × h`, interior tint
`boost` (the script's `color_boost`). -/
structure Block where
  x : Nat
  y : Nat
  w : Nat
  h : Nat
  boost : Nat
deriving DecidableEq, Repr

/-- Block number `i`, built from draws `5*i .. 5*i+4` exactly as the
script's loop body: `randint(0, width)`, `randint(0, height)`,
`randint(50, 200)`, `randint(50, 200)`, `randint(20, 60)`. -/
def blockAt (g : Nat → Nat) (w h i : Nat) : Block :=
  { x := randint 0 w (g (5 * i)),
    y := randint 0 h (g (5 * i + 1)),
    w := randint 50 200 (g (5 * i + 2)),
    h := randint 50 200 (g (5 * i + 3)),
    boost := randint 20 60 (g (5 * i + 4)) }

/-- The block list sampled once before pixel generation.  The script
hardcodes `count = 50` (`for _ in range(50)`); we keep the loop bound a
parameter, instantiated with 50 in `generate_chip_bg`. -/
def genBlocks (g : Nat → Nat) (w h count : Nat) : List Block :=
  (List.range count).map (blockAt g w h)

/-- The script's containment test `bx <= x < bx + bw and by <= y < by + bh`. -/
def inBlock (b : Block) (x y : Nat) : Bool :=
  b.x ≤ x && x < b.x + b.w && b.y ≤ y && y < b.y + b.h

/-- The script's border test
`x == bx or x == bx + bw - 1 or y == by or y == by + bh - 1`. -/
def onBorder (b : Block) (x y : Nat) : Bool :=
  x == b.x || x == b.x + b.w - 1 || y == b.y || y == b.y + b.h - 1

/-- A pixel's three channel values, before the BGR byte serialisation. -/
structure RGB where
  r : Nat
  g : Nat
  b : Nat
deriving DecidableEq, Repr

/-- One iteration of the script's block loop on the running channel
values: inside a block add `boost // 2` to red and blue and `boost` to
green, and a further 40 to green on the block's border. -/
def applyBlock (x y : Nat) (c : RGB) (bl : Block) : RGB :=
  if inBlock bl x y then
    let c' : RGB := { r := c.r + bl.boost / 2, g := c.g + bl.boost, b := c.b + bl.boost / 2 }
    if onBorder bl x y then { c' with g := c'.g + 40 } else c'
  else c

/-- The per-pixel compositor of the script's inner loop: base colour
`(20, 30, 25)`, noise `n` added to all three channels, the block loop,
the grid lines (`x % 128 == 0 or y % 128 == 0` adds 30 to each channel),
then the clamp `min 255` per channel. -/
def pixelRGB (blocks : List Block) (x y n : Nat) : RGB :=
  let c0 : RGB := { r := 20 + n, g := 30 + n, b := 25 + n }
  let c1 := blocks.foldl (applyBlock x y) c0
  let c2 := if x % 128 == 0 || y % 128 == 0 then
    { r := c1.r + 30, g := c1.g + 30, b := c1.b + 30 } else c1
  { r := min 255 c2.r, g := min 255 c2.g, b := min 255 c2.b }

/-- Noise draw for pixel `(x, y)`: the script calls `random.randint(0, 10)`
once per pixel, after the `5 * count` block draws, in row-major order. -/
def noiseAt (g : Nat → Nat) (count w x y : Nat) : Nat :=
  randint 0 10 (g (5 * count + y * w + x))

/-- Row stride: the script's `row_size = (width * 3 + 3) & ~3`.  Masking
a non-negative integer with the two's-complement `~3 = -4` clears the two
low bits, i.e. rounds down to a multiple of 4, which on `Nat` is
`4 * ((3 * w + 3) / 4)`. -/
def row_size (w : Nat) : Nat := 4 * ((3 * w + 3) / 4)

/-- BGR byte order: the script writes `row[idx] = b; row[idx+1] = g;
row[idx+2] = r`. -/
def bgr (c : RGB) : List Nat := [c.b, c.g, c.r]

/-- One serialised pixel row: `width` BGR triples followed by the zero
padding bytes the `bytearray(row_size)` constructor leaves in place. -/
def rowAt (blocks : List Block) (g : Nat → Nat) (count w stride y : Nat) : List Nat :=
  ((List.range w).map (fun x => bgr (pixelRGB blocks x y (noiseAt g count w x y)))).flatten
    ++ List.replicate (stride - 3 * w) 0

/-- Little-endian 16-bit serialisation (`struct.pack` with format `<H`). -/
def le16 (v : Nat) : List Nat := [v % 256, v / 256 % 256]

/-- Little-endian 32-bit serialisation (`struct.pack` with formats `<I`
and, for the non-negative values the script packs, `<i`). -/
def le32 (v : Nat) : List Nat := [v % 256, v / 256 % 256, v / 65536 % 256, v / 16777216 % 256]

/-- Little-endian decoding of a byte list (least significant first). -/
def leDec (l : List Nat) : Nat := l.foldr (fun b acc => b + 256 * acc) 0

/-- The 54 header bytes the script writes before any pixel data:
14-byte file header (`BM`, file size, reserved, data offset 54) and the
40-byte info header. -/
def header (w h : Nat) : List Nat :=
  [66, 77] ++ le32 (14 + 40 + row_size w * h) ++ le32 0 ++ le32 54
  ++ le32 40 ++ le32 w ++ le32 h ++ le16 1 ++ le16 24 ++ le32 0
  ++ le32 (row_size w * h) ++ le32 2835 ++ le32 2835 ++ le32 0 ++ le32 0

/-- The whole byte stream `generate_chip_bg` writes, with the block-loop
bound `count` kept as a parameter: header, then the rows for
`y = 0, 1, …, height - 1` in exactly that order. -/
def generate_chip_bgN (w h count : Nat) (g : Nat → Nat) : List Nat :=
  header w h
    ++ ((List.range h).map (rowAt (genBlocks g w h count) g count w (row_size w))).flatten

/-- The byte stream of the script's `generate_chip_bg(filename, width, height)`
(the file contents; the script hardcodes 50 blocks). -/
def generate_chip_bg (w h : Nat) (g : Nat → Nat) : List Nat :=
  generate_chip_bgN w h 50 g

/-- Concrete draw stream for a 2 × 2 image: every block's x draw is 2
(placing all 50 blocks at x = 2, clear of columns 0 and 1), every other
draw is 0 (blocks `(2, 0, 50, 50, 20)`, zero noise). -/
def gC3 : Nat → Nat := fun i => if i < 250 && i % 5 == 0 then 2 else 0

/-- Concrete draw stream returning 4 for every draw. -/
def g4 : Nat → Nat := fun _ => 4

/-- A concrete block for permutation tests. -/
def bA : Block := ⟨0, 0, 50, 50, 20⟩

/-- A second concrete block for permutation tests. -/
def bB : Block := ⟨1, 1, 60, 60, 40⟩

/-- Sum, over the blocks containing `(x, y)`, of `boost / 2` (the amount
each containing block adds to red and to blue). -/
def boostHalfSum (blocks : List Block) (x y : Nat) : Nat :=
  ((blocks.filter (fun b => inBlock b x y)).map (fun b => b.boost / 2)).sum

/-- Sum, over the blocks containing `(x, y)`, of the full `boost` (the
amount each containing block adds to green). -/
def boostSum (blocks : List Block) (x y : Nat) : Nat :=
  ((blocks.filter (fun b => inBlock b x y)).map (fun b => b.boost)).sum

/-- Total border bonus at `(x, y)`: 40 to green for every containing
block on whose boundary the pixel lies. -/
def borderBonus (blocks : List Block) (x y : Nat) : Nat :=
  40 * (blocks.filter (fun b => inBlock b x y && onBorder b x y)).length

/-- Grid-layer contribution: 30 on the grid lines, 0 elsewhere. -/
def gridAdd (x y : Nat) : Nat := if x % 128 == 0 || y % 128 == 0 then 30 else 0

/-- The per-pixel channel values as the specification states them: the
clamp to at most 255 of base plus noise plus the summed block
contributions plus the grid contribution. -/
def specPixel (blocks : List Block) (x y n : Nat) : RGB :=
  { r := min 255 (20 + n + boostHalfSum blocks x y + gridAdd x y),
    g := min 255 (30 + n + boostSum blocks x y + borderBonus blocks x y + gridAdd x y),
    b := min 255 (25 + n + boostHalfSum blocks x y + gridAdd x y) }

theorem foldl_applyBlock (blocks : List Block) (x y : Nat) (c : RGB) :
    blocks.foldl (applyBlock x y) c =
      { r := c.r + boostHalfSum blocks x y,
        g := c.g + boostSum blocks x y + borderBonus blocks x y,
        b := c.b + boostHalfSum blocks x y } := by
  induction blocks generalizing c with
  | nil => simp [boostHalfSum, boostSum, borderBonus]
  | cons b bs ih =>
      simp only [List.foldl_cons, ih]
      unfold applyBlock boostHalfSum boostSum borderBonus
      by_cases hin : inBlock b x y <;> by_cases hbd : onBorder b x y <;>
        simp [hin, hbd, List.filter_cons, RGB.mk.injEq, Nat.mul_add] <;> omega

/-- Equivalence of the script's sequential accumulation with the
specification's clamp-of-sums form. -/
theorem pixelRGB_eq_specPixel (blocks : List Block) (x y n : Nat) :
    pixelRGB blocks x y n = specPixel blocks x y n := by
  unfold pixelRGB specPixel gridAdd
  simp only [foldl_applyBlock]
  by_cases hg : (x % 128 == 0 || y % 128 == 0) = true <;>
    simp [hg, RGB.mk.injEq]

theorem row_size_spec (w : Nat) :
    row_size w = (3 * w + 3) - (3 * w + 3) % 4 ∧ row_size w % 4 = 0 ∧
      3 * w ≤ row_size w ∧ row_size w ≤ 3 * w + 3 := by
  unfold row_size; omega

theorem length_le32 (v : Nat) : (le32 v).length = 4 := rfl

theorem length_header (w h : Nat) : (header w h).length = 54 := by
  simp [header, le32, le16]

theorem length_rowAt (blocks : List Block) (g : Nat → Nat) (count w stride y : Nat)
    (hs : 3 * w ≤ stride) : (rowAt blocks g count w stride y).length = stride := by
  unfold rowAt
  rw [List.length_append, List.length_flatten, List.length_replicate]
  have hmap : ((List.range w).map
      (fun x => bgr (pixelRGB blocks x y (noiseAt g count w x y)))).map List.length
      = List.replicate w 3 := by
    rw [List.map_map, List.eq_replicate_iff]
    refine ⟨by simp, ?_⟩
    intro b hb
    simp only [List.mem_map, Function.comp] at hb
    obtain ⟨x, _, hx⟩ := hb
    simp [bgr] at hx
    omega
  rw [hmap]
  simp [List.sum_replicate, Nat.smul_one_eq_cast]
  omega

theorem length_flatten_rows (rows : List (List Nat)) (s : Nat)
    (hr : ∀ r ∈ rows, r.length = s) : rows.flatten.length = rows.length * s := by
  induction rows with
  | nil => simp
  | cons r rs ih =>
      simp only [List.flatten_cons, List.length_append, List.length_cons]
      rw [hr r (by simp), ih (fun r' h' => hr r' (by simp [h']))]
      ring

theorem length_generateN (w h count : Nat) (g : Nat → Nat) :
    (generate_chip_bgN w h count g).length = 54 + h * row_size w := by
  unfold generate_chip_bgN
  rw [List.length_append, length_header]
  rw [length_flatten_rows _ (row_size w) ?_, List.length_map, List.length_range]
  intro r hr
  simp only [List.mem_map] at hr
  obtain ⟨y, _, hy⟩ := hr
  rw [← hy]
  exact length_rowAt _ _ _ _ _ _ (row_size_spec w).2.2.1

theorem dropChunk {α : Type} (l1 l2 : List α) (k n : Nat) (hl : l1.length = k) :
    (l1 ++ l2).drop (k + n) = l2.drop n := by
  rw [← List.drop_drop, List.drop_left' hl]

theorem takeChunk {α : Type} (l1 l2 : List α) (k : Nat) (hl : l1.length = k) :
    (l1 ++ l2).take k = l1 := List.take_left' hl

theorem leDec_le32 (v : Nat) (hv : v < 4294967296) : leDec (le32 v) = v := by
  simp only [le32, leDec, List.foldr]
  omega

theorem flatten_const_get (s y : Nat) :
    ∀ (f : Nat → List Nat) (h : Nat) (tail : List Nat), (∀ i, (f i).length = s) → y < h →
    ∃ rest, (((List.range h).map f).flatten ++ tail).drop (y * s) = f y ++ rest := by
  induction y with
  | zero =>
      intro f h tail hf hy
      obtain ⟨k, rfl⟩ : ∃ k, h = k + 1 := ⟨h - 1, by omega⟩
      rw [List.range_succ_eq_map, List.map_cons, List.flatten_cons, List.append_assoc,
        Nat.zero_mul, List.drop_zero]
      exact ⟨_, rfl⟩
  | succ y ih =>
      intro f h tail hf hy
      obtain ⟨k, rfl⟩ : ∃ k, h = k + 1 := ⟨h - 1, by omega⟩
      rw [List.range_succ_eq_map, List.map_cons, List.flatten_cons, List.append_assoc,
        show (y + 1) * s = s + y * s by ring, dropChunk (f 0) _ s (y * s) (hf 0),
        List.map_map]
      exact ih (fun i => f (Nat.succ i)) k tail (fun i => hf _) (by omega)

/-- C1: for every pixel `(x, y)` of a generated buffer, the emitted
channel bytes (in BGR order, at offset `54 + y*rowStride + 3*x` of the
byte stream) equal the clamp to at most 255 of: base `(20, 30, 25)`,
plus one per-pixel noise value `n ∈ [0, 10]` added equally to all three
channels, plus `colorBoost/2` (truncating) to red and blue and the full
`colorBoost` to green for every block whose half-open rectangle contains
the pixel, plus a further 40 to green on a containing block's boundary,
plus 30 to all three channels when `x % 128 = 0` or `y % 128 = 0`. -/
theorem generate_pixel_formula (w h : Nat) (g : Nat → Nat) (x y : Nat)
    (hx : x < w) (hy : y < h) :
    noiseAt g 50 w x y ≤ 10 ∧
    ((generate_chip_bg w h g).drop (54 + y * row_size w + 3 * x)).take 3
      = bgr (specPixel (genBlocks g w h 50) x y (noiseAt g 50 w x y)) := by
  constructor
  · unfold noiseAt randint
    omega
  · unfold generate_chip_bg generate_chip_bgN
    rw [show 54 + y * row_size w + 3 * x = 54 + (y * row_size w + 3 * x) by omega,
      dropChunk (header w h) _ 54 _ (length_header w h), ← List.drop_drop]
    obtain ⟨rest, hrow⟩ := flatten_const_get (row_size w) y
      (rowAt (genBlocks g w h 50) g 50 w (row_size w)) h []
      (fun i => length_rowAt _ _ _ _ _ _ (row_size_spec w).2.2.1) hy
    rw [List.append_nil] at hrow
    rw [hrow]
    unfold rowAt
    rw [List.append_assoc]
    obtain ⟨rest2, hpix⟩ := flatten_const_get 3 x
      (fun xx => bgr (pixelRGB (genBlocks g w h 50) xx y (noiseAt g 50 w xx y))) w
      (List.replicate (row_size w - 3 * w) 0 ++ rest) (fun i => rfl) hx
    rw [show 3 * x = x * 3 by ring, hpix,
      takeChunk (bgr (pixelRGB (genBlocks g w h 50) x y (noiseAt g 50 w x y))) rest2 3 rfl,
      pixelRGB_eq_specPixel]

/-- C1 witness: the pixel formula instantiated at `(x, y) = (1, 1)` of a
2 × 2 image with an all-zero draw stream. -/
theorem generate_pixel_formula_witness :
    noiseAt (fun _ => 0) 50 2 1 1 ≤ 10 ∧
    ((generate_chip_bg 2 2 (fun _ => 0)).drop (54 + 1 * row_size 2 + 3 * 1)).take 3
      = bgr (specPixel (genBlocks (fun _ => 0) 2 2 50) 1 1 (noiseAt (fun _ => 0) 50 2 1 1)) :=
  generate_pixel_formula 2 2 (fun _ => 0) 1 1 (by decide) (by decide)

/-- C2: the script performs no dimension validation at all.  For
`width = 0` (and any positive height) it opens the destination, writes
the complete 54-byte header followed by `height` empty rows, and
completes without raising: 54 bytes are written, not zero, and no
`InvalidDimensions` failure exists in the code. -/
theorem invalid_width_writes_header (g : Nat → Nat) :
    (generate_chip_bg 0 1024 g).length = 54 ∧ generate_chip_bg 0 1024 g ≠ [] := by
  have hl := length_generateN 0 1024 50 g
  have hrs : row_size 0 = 0 := by decide
  rw [hrs] at hl
  unfold generate_chip_bg
  refine ⟨by omega, fun hnil => ?_⟩
  rw [hnil] at hl
  simp at hl

/-- C3 counterexample: with a 2 × 2 image and the concrete draw stream
`gC3`, the first row of the file's pixel-data section (bytes 54-61) is
the compositor's row `y = 0`, not the row `y = height - 1 = 1` the claim
requires (the two rows differ, so this refutes bottom-to-top order). -/
theorem encode_row_order_counterexample :
    ((generate_chip_bg 2 2 gC3).drop 54).take 8
        = rowAt (genBlocks gC3 2 2 50) gC3 50 2 8 0 ∧
    ((generate_chip_bg 2 2 gC3).drop 54).take 8
        ≠ rowAt (genBlocks gC3 2 2 50) gC3 50 2 8 1 := by decide

/-- C3 amended: the encoder writes the rows in exactly the order the
compositor produces them, `y = 0` first, so the row for `y = 0` is the
first row of the file's pixel-data section (under these headers'
positive-height bottom-up convention that row is displayed as the bottom
scanline; no reversal happens in the code). -/
theorem encode_row_order_amended (w h count : Nat) (g : Nat → Nat) (hh : 0 < h) :
    ((generate_chip_bgN w h count g).drop 54).take (row_size w)
      = rowAt (genBlocks g w h count) g count w (row_size w) 0 := by
  unfold generate_chip_bgN
  rw [show (54 : Nat) = 54 + 0 from rfl,
    dropChunk (header w h) _ 54 0 (length_header w h), List.drop_zero]
  obtain ⟨rest, hrow⟩ := flatten_const_get (row_size w) 0
    (rowAt (genBlocks g w h count) g count w (row_size w)) h []
    (fun i => length_rowAt _ _ _ _ _ _ (row_size_spec w).2.2.1) hh
  rw [List.append_nil, Nat.zero_mul, List.drop_zero] at hrow
  rw [hrow, takeChunk _ _ _ (length_rowAt _ _ _ _ _ _ (row_size_spec w).2.2.1)]

/-- C3 amended witness: the first pixel-data row of a 2 × 2 image under
the draw stream `gC3` is the compositor's row `y = 0`. -/
theorem encode_row_order_amended_witness :
    ((generate_chip_bgN 2 2 50 gC3).drop 54).take (row_size 2)
      = rowAt (genBlocks gC3 2 2 50) gC3 50 2 (row_size 2) 0 :=
  encode_row_order_amended 2 2 50 gC3 (by decide)

/-- C4 counterexample: with `width = height = 4` and the constant draw
stream `g4`, the first sampled block has `x = 4 = width` — Python's
`randint(0, width)` is inclusive, so block coordinates are not confined
to `[0, width)` as claimed. -/
theorem block_coord_counterexample :
    ((genBlocks g4 4 4 50).getD 0 ⟨0, 0, 0, 0, 0⟩).x = 4 ∧
    ¬ ((genBlocks g4 4 4 50).getD 0 ⟨0, 0, 0, 0, 0⟩).x < 4 := by decide

/-- C4 amended: exactly 50 blocks are sampled once before pixel
generation; each block has top-left `x ∈ [0, width]` and
`y ∈ [0, height]` (both endpoints inclusive — `randint` is inclusive, so
a block may even start at the past-the-edge column/row), extents in
`[50, 200]`, and colorBoost in `[20, 60]`. -/
theorem genBlocks_count_and_ranges :
    (∀ (g : Nat → Nat) (w h : Nat), (genBlocks g w h 50).length = 50) ∧
    (∀ (g : Nat → Nat) (w h count : Nat), ∀ b ∈ genBlocks g w h count,
      b.x ≤ w ∧ b.y ≤ h ∧ 50 ≤ b.w ∧ b.w ≤ 200 ∧ 50 ≤ b.h ∧ b.h ≤ 200 ∧
      20 ≤ b.boost ∧ b.boost ≤ 60) := by
  refine ⟨fun g w h => by simp [genBlocks], ?_⟩
  intro g w h count b hb
  simp only [genBlocks, List.mem_map, List.mem_range] at hb
  obtain ⟨i, _, rfl⟩ := hb
  dsimp only [blockAt, randint]
  have hx := Nat.mod_lt (g (5 * i)) (show 0 < w + 1 - 0 by omega)
  have hy := Nat.mod_lt (g (5 * i + 1)) (show 0 < h + 1 - 0 by omega)
  refine ⟨by omega, by omega, by omega, by omega, by omega, by omega, by omega, by omega⟩

/-- C4 amended witness: the field bounds applied to the single block of
`genBlocks g4 4 4 1`. -/
theorem genBlocks_count_and_ranges_witness :
    (blockAt g4 4 4 0).x ≤ 4 ∧ (blockAt g4 4 4 0).y ≤ 4 ∧
    50 ≤ (blockAt g4 4 4 0).w ∧ (blockAt g4 4 4 0).w ≤ 200 ∧
    50 ≤ (blockAt g4 4 4 0).h ∧ (blockAt g4 4 4 0).h ≤ 200 ∧
    20 ≤ (blockAt g4 4 4 0).boost ∧ (blockAt g4 4 4 0).boost ≤ 60 :=
  genBlocks_count_and_ranges.2 g4 4 4 1 (blockAt g4 4 4 0) (by decide)

/-- C7: the per-channel clamp keeps every emitted channel value at most
255 (values are naturals, hence at least 0), for an arbitrary block list
— any count, any positions, any boosts — and an arbitrary noise value. -/
theorem pixel_channels_in_range (blocks : List Block) (x y n : Nat) :
    (pixelRGB blocks x y n).r ≤ 255 ∧ (pixelRGB blocks x y n).g ≤ 255 ∧
    (pixelRGB blocks x y n).b ≤ 255 := by
  rw [pixelRGB_eq_specPixel]
  exact ⟨Nat.min_le_left 255 _, Nat.min_le_left 255 _, Nat.min_le_left 255 _⟩

/-- C8: the generate-then-encode pipeline is a pure function of the
dimensions, the block-loop bound and the draw stream: two runs whose
streams agree on every draw produce byte-identical output. -/
theorem generate_deterministic (w h count : Nat) (g1 g2 : Nat → Nat)
    (hg : ∀ i, g1 i = g2 i) :
    generate_chip_bgN w h count g1 = generate_chip_bgN w h count g2 := by
  rw [funext hg]

/-- C8 witness: two syntactically different but pointwise-equal draw
streams give identical 2 × 2 outputs. -/
theorem generate_deterministic_witness :
    generate_chip_bgN 2 2 1 (fun i => i) = generate_chip_bgN 2 2 1 (fun i => 0 + i) :=
  generate_deterministic 2 2 1 (fun i => i) (fun i => 0 + i) (fun i => (Nat.zero_add i).symm)

/-- C9: permuting the sampled block list changes no pixel and no
serialised row: the blocks' additive contributions commute, and
overlapping blocks all apply additively. -/
theorem pixel_buffer_perm_invariant (l1 l2 : List Block) (hp : l1.Perm l2) :
    (∀ x y n, pixelRGB l1 x y n = pixelRGB l2 x y n) ∧
    (∀ (g : Nat → Nat) (count w stride y : Nat),
      rowAt l1 g count w stride y = rowAt l2 g count w stride y) := by
  have hpix : ∀ x y n, pixelRGB l1 x y n = pixelRGB l2 x y n := by
    intro x y n
    rw [pixelRGB_eq_specPixel, pixelRGB_eq_specPixel]
    unfold specPixel boostHalfSum boostSum borderBonus
    have hin : (l1.filter (fun b => inBlock b x y)).Perm
        (l2.filter (fun b => inBlock b x y)) := hp.filter _
    have hbd : (l1.filter (fun b => inBlock b x y && onBorder b x y)).Perm
        (l2.filter (fun b => inBlock b x y && onBorder b x y)) := hp.filter _
    rw [(hin.map (fun b => b.boost / 2)).sum_eq, (hin.map (fun b => b.boost)).sum_eq,
      hbd.length_eq]
  refine ⟨hpix, fun g count w stride y => ?_⟩
  unfold rowAt
  congr 1
  exact congrArg List.flatten (List.map_congr_left (fun a _ => by rw [hpix]))

/-- C9 witness: swapping two concrete overlapping blocks leaves the
pixel at `(1, 1)` unchanged. -/
theorem pixel_buffer_perm_invariant_witness :
    pixelRGB [bA, bB] 1 1 0 = pixelRGB [bB, bA] 1 1 0 :=
  (pixel_buffer_perm_invariant [bA, bB] [bB, bA] (List.Perm.swap bB bA [])).1 1 1 0

/-- C10: every layer other than the base adds equal amounts to red and
blue, so blue is always at least red, and exceeds it by exactly 5 (the
base difference 25 − 20) whenever blue is below the 255 ceiling. -/
theorem blue_exceeds_red_by_five (blocks : List Block) (x y n : Nat) :
    (pixelRGB blocks x y n).r ≤ (pixelRGB blocks x y n).b ∧
    ((pixelRGB blocks x y n).b < 255 →
      (pixelRGB blocks x y n).b = (pixelRGB blocks x y n).r + 5) := by
  rw [pixelRGB_eq_specPixel]
  simp only [specPixel]
  omega

/-- C10 witness: on the bare base colour, red 20 and blue 25 differ by
exactly 5 below saturation. -/
theorem blue_exceeds_red_by_five_witness :
    (pixelRGB [] 1 1 0).r ≤ (pixelRGB [] 1 1 0).b ∧
    ((pixelRGB [] 1 1 0).b < 255 →
      (pixelRGB [] 1 1 0).b = (pixelRGB [] 1 1 0).r + 5) :=
  blue_exceeds_red_by_five [] 1 1 0

/-- C5: for valid dimensions (positive, and small enough that the
32-bit header fields the script packs do not overflow, as `struct.pack`
would refuse larger values) the output starts with `0x42 0x4D` (`BM`,
bytes 66 77); bytes 14-17 little-endian equal 40; bytes 18-21 and 22-25
little-endian equal width and height (non-negative, so the signed and
unsigned readings agree); and the declared file size in bytes 2-5 equals
`14 + 40 + rowStride * height`, which is the stream's actual length. -/
theorem header_invariants (w h : Nat) (g : Nat → Nat) (hw : 0 < w) (hh : 0 < h)
    (hwb : w < 2147483648) (hhb : h < 2147483648)
    (hfs : 14 + 40 + row_size w * h < 4294967296) :
    (generate_chip_bg w h g).take 2 = [66, 77] ∧
    leDec (((generate_chip_bg w h g).drop 14).take 4) = 40 ∧
    leDec (((generate_chip_bg w h g).drop 18).take 4) = w ∧
    leDec (((generate_chip_bg w h g).drop 22).take 4) = h ∧
    leDec (((generate_chip_bg w h g).drop 2).take 4) = 14 + 40 + row_size w * h ∧
    (generate_chip_bg w h g).length = 14 + 40 + row_size w * h := by
  have hlen := length_generateN w h 50 g
  rw [Nat.mul_comm h (row_size w)] at hlen
  refine ⟨?_, ?_, ?_, ?_, ?_, ?_⟩
  · simp [generate_chip_bg, generate_chip_bgN, header, le32, le16]
  · simp [generate_chip_bg, generate_chip_bgN, header, le32, le16, leDec]
  · simp only [generate_chip_bg, generate_chip_bgN, header, le32, le16, leDec,
      List.cons_append, List.nil_append, List.drop_succ_cons, List.drop_zero,
      List.take_succ_cons, List.take_zero, List.foldr_cons, List.foldr_nil]
    omega
  · simp only [generate_chip_bg, generate_chip_bgN, header, le32, le16, leDec,
      List.cons_append, List.nil_append, List.drop_succ_cons, List.drop_zero,
      List.take_succ_cons, List.take_zero, List.foldr_cons, List.foldr_nil]
    omega
  · simp only [generate_chip_bg, generate_chip_bgN, header, le32, le16, leDec,
      List.cons_append, List.nil_append, List.drop_succ_cons, List.drop_zero,
      List.take_succ_cons, List.take_zero, List.foldr_cons, List.foldr_nil]
    omega
  · rw [show generate_chip_bg w h g = generate_chip_bgN w h 50 g from rfl, hlen]

/-- C5 witness: the header invariants at a 2 × 2 image. -/
theorem header_invariants_witness :
    (generate_chip_bg 2 2 g4).take 2 = [66, 77] ∧
    leDec (((generate_chip_bg 2 2 g4).drop 14).take 4) = 40 ∧
    leDec (((generate_chip_bg 2 2 g4).drop 18).take 4) = 2 ∧
    leDec (((generate_chip_bg 2 2 g4).drop 22).take 4) = 2 ∧
    leDec (((generate_chip_bg 2 2 g4).drop 2).take 4) = 14 + 40 + row_size 2 * 2 ∧
    (generate_chip_bg 2 2 g4).length = 14 + 40 + row_size 2 * 2 :=
  header_invariants 2 2 g4 (by decide) (by decide) (by decide) (by decide) (by decide)

/-- C6: the row stride is `(width*3 + 3)` with its two low bits cleared
(the meaning of `& ~3` on a non-negative value), in particular 3072 for
width 1024 and 4 for width 1; and a 1 × 1 image yields a complete
58-byte file for every draw stream — the degenerate geometry crashes
nothing. -/
theorem row_stride_claim :
    (∀ w, 0 < w → row_size w = (3 * w + 3) - (3 * w + 3) % 4) ∧
    row_size 1024 = 3072 ∧ row_size 1 = 4 ∧
    (∀ g : Nat → Nat, (generate_chip_bg 1 1 g).length = 58) := by
  refine ⟨fun w _ => by unfold row_size; omega, by decide, by decide, fun g => ?_⟩
  have hl := length_generateN 1 1 50 g
  have hrs : row_size 1 = 4 := by decide
  rw [hrs] at hl
  exact hl

/-- C6 witness: the stride formula applied at width 5 (stride 16). -/
theorem row_stride_claim_witness :
    row_size 5 = (3 * 5 + 3) - (3 * 5 + 3) % 4 :=
  row_stride_claim.1 5 (by decide)

